/-
Verification of the unit3d-terminal-chat message pipeline (chat.py).

We embed the core of the program shallowly:
  * `parse_bbcode` models the three `re.sub` rewrites (chat.py lines 78-90);
  * `fromisoformat` models Python's `datetime.fromisoformat` on the
    extended ISO-8601 formats it accepts (date, optional single separator
    character, optional time with optional fractional seconds and offset);
  * `extract` models the per-fragment parsing of
    `ChatMonitor.process_messages` (lines 134-150), with a `RawFragment`
    holding the results of the three CSS selections BeautifulSoup performs;
  * `stepFragment` / `processMessages` / `monitorLive` model the dedup,
    normalization and queueing of lines 131-158 and the polling loop,
    emitting an explicit event trace (`record` into the seen-set, `push`
    onto the queue) so that ordering between the two is observable;
  * `handleKey` models the keystroke dispatch of `curses_main`
    (lines 282-291).
-/
import Mathlib

namespace Unit3dChat

/-! ### Python string primitives -/

/-- The whitespace characters stripped by Python's `str.strip()`
(ASCII subset: space, tab, newline, carriage return, vertical tab, form feed). -/
def pyIsSpace (c : Char) : Bool :=
  c == ' ' || c == '\t' || c == '\n' || c == '\r' ||
  c == Char.ofNat 11 || c == Char.ofNat 12

/-- Python `str.strip()`: remove leading and trailing whitespace. -/
def pyStrip (s : String) : String :=
  ⟨((s.data.dropWhile pyIsSpace).reverse.dropWhile pyIsSpace).reverse⟩

/-- Python `str.upper()` restricted to ASCII letters (the only case the
chat pipeline exercises). -/
def pyUpperChar (c : Char) : Char :=
  if 'a' ≤ c ∧ c ≤ 'z' then Char.ofNat (c.toNat - 32) else c

/-! ### The `re.sub` embedding

Each pattern in `parse_bbcode` has shape `L(.*?)R` with `re.DOTALL`:
a literal opening part, a lazily matched body (newlines included), and a
literal closing tag.  `re.sub` scans left to right; at each position it
tries to match, and a lazy body makes the match end at the *first*
occurrence of the closing part after the opening part.  We embed this as
a matcher `List Char → Option (List Char × List Char)` returning the
replacement text and the remainder after the match, and a driver that
scans positions left to right.  The driver uses the input length as
fuel; every successful match consumes at least the opening and closing
tags, so the remainder is always shorter than the fuel spent and the
fuel never runs out. -/

/-- Split a list at the first occurrence of `needle`: returns the part
before it and the part after it. -/
def splitAtFirst (needle : List Char) : List Char → Option (List Char × List Char)
  | [] => if needle.isEmpty then some ([], []) else none
  | c :: cs =>
    if needle.isPrefixOf (c :: cs) then
      some ([], (c :: cs).drop needle.length)
    else
      match splitAtFirst needle cs with
      | some (pre, post) => some (c :: pre, post)
      | none => none

/-- Matcher for `opn(.*?)cls` at the head of the input: the body runs to
the first occurrence of `cls`, and `repl` is applied to it. -/
def tagMatchAt (opn cls : List Char) (repl : List Char → List Char)
    (s : List Char) : Option (List Char × List Char) :=
  if opn.isPrefixOf s then
    match splitAtFirst cls (s.drop opn.length) with
    | some (body, rest) => some (repl body, rest)
    | none => none
  else none

/-- Matcher for the color pattern `\[color=([^]]+)\](.*?)\[/color\]` at the
head of the input: `[color=`, at least one non-`]` character, `]`, then a
lazy body up to the first `[/color]`.  The replacement is the body alone. -/
def colorMatchAt (s : List Char) : Option (List Char × List Char) :=
  if ("[color=".data).isPrefixOf s then
    let t := s.drop 7
    let attr := t.takeWhile (fun c => c ≠ ']')
    if attr.isEmpty then none
    else
      match t.drop attr.length with
      | ']' :: t2 =>
        match splitAtFirst ("[/color]".data) t2 with
        | some (body, rest) => some (body, rest)
        | none => none
      | _ => none
  else none

/-- Left-to-right scan applying `m` at each position, as `re.sub` does.
`fuel` starts at the input length; see the section comment. -/
def substAux (m : List Char → Option (List Char × List Char)) :
    Nat → List Char → List Char
  | 0, s => s
  | _ + 1, [] => []
  | n + 1, c :: cs =>
    match m (c :: cs) with
    | some (r, rest) => r ++ substAux m n rest
    | none => c :: substAux m n cs

/-- One `re.sub` pass with matcher `m` over a string. -/
def subst (m : List Char → Option (List Char × List Char)) (s : String) : String :=
  ⟨substAux m s.data.length s.data⟩

/-- Does `m` match at some position of the input? -/
def hasMatch (m : List Char → Option (List Char × List Char)) : List Char → Bool
  | [] => false
  | c :: cs => (m (c :: cs)).isSome || hasMatch m cs

/-- chat.py line 85: `re.sub(r'\[b\](.*?)\[/b\]', upper, text, flags=re.DOTALL)`. -/
def boldSub (s : String) : String :=
  subst (tagMatchAt "[b]".data "[/b]".data (·.map pyUpperChar)) s

/-- chat.py line 87: `re.sub(r'\[i\](.*?)\[/i\]', underscore-wrap, text, flags=re.DOTALL)`. -/
def italicSub (s : String) : String :=
  subst (tagMatchAt "[i]".data "[/i]".data (fun b => '_' :: b ++ ['_'])) s

/-- chat.py line 89: `re.sub(r'\[color=([^]]+)\](.*?)\[/color\]', body, text, flags=re.DOTALL)`. -/
def colorSub (s : String) : String :=
  subst colorMatchAt s

/-- chat.py lines 78-90: the BBCode normalizer, three passes in order. -/
def parse_bbcode (text : String) : String :=
  colorSub (italicSub (boldSub text))

/-- The input contains a bold pattern occurrence. -/
def hasBold (s : String) : Bool :=
  hasMatch (tagMatchAt "[b]".data "[/b]".data (·.map pyUpperChar)) s.data

/-- The input contains an italic pattern occurrence. -/
def hasItalic (s : String) : Bool :=
  hasMatch (tagMatchAt "[i]".data "[/i]".data (fun b => '_' :: b ++ ['_'])) s.data

/-- The input contains a color pattern occurrence. -/
def hasColor (s : String) : Bool :=
  hasMatch colorMatchAt s.data

/-! ### `datetime.fromisoformat` and `strftime("%H:%M:%S")`

Modelled from Python's `datetime.fromisoformat` (the standard library the
extractor calls at chat.py line 141), on its extended-format core:
`YYYY-MM-DD`, optionally followed by a single separator character and a
time `HH[:MM[:SS[.digits]]]`, optionally followed by `Z` or an offset
`±HH[:MM[:SS]]`, with calendar and range validation.  The display
rendering `strftime("%H:%M:%S")` (line 142) zero-pads the stored wall
time and ignores any offset. -/

structure PyDateTime where
  year : Nat
  month : Nat
  day : Nat
  hour : Nat
  minute : Nat
  second : Nat
deriving DecidableEq, Repr

def digitVal (c : Char) : Option Nat :=
  if '0' ≤ c ∧ c ≤ '9' then some (c.toNat - 48) else none

def parse2 : List Char → Option (Nat × List Char)
  | a :: b :: rest => do
    let x ← digitVal a
    let y ← digitVal b
    pure (10 * x + y, rest)
  | _ => none

def parse4 : List Char → Option (Nat × List Char)
  | a :: b :: c :: d :: rest => do
    let x ← digitVal a
    let y ← digitVal b
    let z ← digitVal c
    let w ← digitVal d
    pure (1000 * x + 100 * y + 10 * z + w, rest)
  | _ => none

def isLeapYear (y : Nat) : Bool :=
  y % 4 == 0 && (y % 100 != 0 || y % 400 == 0)

def daysInMonth (y m : Nat) : Nat :=
  if m == 2 then (if isLeapYear y then 29 else 28)
  else if m == 4 || m == 6 || m == 9 || m == 11 then 30
  else 31

/-- Parse an optional UTC offset suffix: nothing, `Z`, or `±HH[:MM[:SS]]`.
Returns `some rest` when the suffix is well formed (the offset value is
irrelevant to the display time). -/
def parseOffset : List Char → Option (List Char)
  | [] => some []
  | 'Z' :: rest => some rest
  | c :: rest =>
    if c = '+' ∨ c = '-' then do
      let (oh, r1) ← parse2 rest
      if oh ≥ 24 then none
      else
        match r1 with
        | ':' :: r2 => do
          let (om, r3) ← parse2 r2
          if om ≥ 60 then none
          else
            match r3 with
            | ':' :: r4 => do
              let (os, r5) ← parse2 r4
              if os ≥ 60 then none else some r5
            | _ => some r3
        | _ => some r1
    else none

/-- Parse `HH[:MM[:SS[.digits]]]` followed by an optional offset; the whole
remainder must be consumed. -/
def parseTime (s : List Char) : Option (Nat × Nat × Nat) := do
  let (h, r1) ← parse2 s
  if h ≥ 24 then none
  else
    match r1 with
    | ':' :: r2 => do
      let (m, r3) ← parse2 r2
      if m ≥ 60 then none
      else
        match r3 with
        | ':' :: r4 => do
          let (sec, r5) ← parse2 r4
          if sec ≥ 60 then none
          else
            match r5 with
            | '.' :: r6 =>
              let frac := r6.takeWhile (fun c => (digitVal c).isSome)
              if frac.isEmpty then none
              else do
                let r7 ← parseOffset (r6.drop frac.length)
                if r7.isEmpty then some (h, m, sec) else none
            | _ => do
              let r6 ← parseOffset r5
              if r6.isEmpty then some (h, m, sec) else none
        | _ => do
          let r4 ← parseOffset r3
          if r4.isEmpty then some (h, m, 0) else none
    | _ => do
      let r2 ← parseOffset r1
      if r2.isEmpty then some (h, 0, 0) else none

/-- Modelled from Python's `datetime.fromisoformat`: `YYYY-MM-DD` with
calendar validation, then optionally one separator character (any
character, as `isoformat` allows) and a time-of-day. -/
def fromisoformat (s : String) : Option PyDateTime := do
  let (y, r1) ← parse4 s.data
  if y = 0 then none
  else
    match r1 with
    | '-' :: r2 => do
      let (mo, r3) ← parse2 r2
      if mo = 0 ∨ mo > 12 then none
      else
        match r3 with
        | '-' :: r4 => do
          let (d, r5) ← parse2 r4
          if d = 0 ∨ d > daysInMonth y mo then none
          else
            match r5 with
            | [] => some ⟨y, mo, d, 0, 0, 0⟩
            | _ :: r6 => do
              let (h, mi, sec) ← parseTime r6
              some ⟨y, mo, d, h, mi, sec⟩
        | _ => none
    | _ => none

def pad2 (n : Nat) : String :=
  if n < 10 then "0" ++ toString n else toString n

/-- Model of `dt.strftime("%H:%M:%S")` (chat.py line 142). -/
def formatHMS (dt : PyDateTime) : String :=
  pad2 dt.hour ++ ":" ++ pad2 dt.minute ++ ":" ++ pad2 dt.second

/-! ### Message extraction (chat.py lines 134-150)

`process_messages` parses each raw HTML fragment with BeautifulSoup and
performs three CSS selections.  We model a fragment by the outcome of
those selections: the text of `header address a span` if that element
exists, the `header time` element (present or not, and its `title`
attribute present or not), and the text of
`section.chatbox-message__content` if that element exists.
`get_text(strip=True)` is modelled as `pyStrip` of the element text. -/

structure TimeElem where
  title : Option String
deriving DecidableEq, Repr

structure RawFragment where
  username_elem : Option String
  time_elem : Option TimeElem
  content_elem : Option String
deriving DecidableEq, Repr

/-- The tuple queued by `process_messages` (chat.py line 156); the source
comment at line 57 names the components `(display_time, username, content)`. -/
structure ChatRecord where
  display_time : String
  username : String
  content : String
deriving DecidableEq, Repr

/-- chat.py line 136: `username_elem.get_text(strip=True) if username_elem else ""`. -/
def extractUsername (f : RawFragment) : String :=
  match f.username_elem with
  | some t => pyStrip t
  | none => ""

/-- chat.py lines 137-146: the `title` attribute is stripped, parsed with
`fromisoformat`, rendered `%H:%M:%S` on success and kept as the stripped
string on failure; a missing element or attribute gives `"Unknown time"`. -/
def extractDisplayTime (f : RawFragment) : String :=
  match f.time_elem with
  | some te =>
    match te.title with
    | some t =>
      let timestamp := pyStrip t
      match fromisoformat timestamp with
      | some dt => formatHMS dt
      | none => timestamp
    | none => "Unknown time"
  | none => "Unknown time"

/-- chat.py line 148: `content_elem.get_text(strip=True) if content_elem else ""`. -/
def extractContent (f : RawFragment) : String :=
  match f.content_elem with
  | some t => pyStrip t
  | none => ""

/-- chat.py lines 134-150: the extraction phase of one loop body,
yielding `none` exactly when line 149's `if not content: continue` fires.
The content here is the raw (not yet normalized) stripped text. -/
def extract (f : RawFragment) : Option ChatRecord :=
  if extractContent f = "" then none
  else some ⟨extractDisplayTime f, extractUsername f, extractContent f⟩

/-! ### Deduplication and queueing (chat.py lines 151-156) -/

/-- chat.py line 151: `unique_key = f"{display_time}-{content}"`, computed
from the raw content before `parse_bbcode` runs. -/
def uniqueKey (display_time content : String) : String :=
  display_time ++ "-" ++ content

/-- The dedup key a fragment would use, when it survives extraction. -/
def fragKey (f : RawFragment) : String :=
  uniqueKey (extractDisplayTime f) (extractContent f)

/-- The tuple line 156 would queue for a fragment: content normalized by
`parse_bbcode` (line 155). -/
def mkRecord (f : RawFragment) : ChatRecord :=
  ⟨extractDisplayTime f, extractUsername f, parse_bbcode (extractContent f)⟩

/-- Observable actions of the loop body, in program order: adding a key to
`seen_messages` (line 154) and putting a tuple on the queue (line 156). -/
inductive Event where
  | record : String → Event
  | push : ChatRecord → Event
deriving DecidableEq, Repr

/-- chat.py lines 134-156 for a single fragment: extract; skip on empty
content; skip when the key is in `seen_messages`; otherwise add the key,
normalize, and queue.  Returns the new seen-set and the emitted events in
program order. -/
def stepFragment (seen : List String) (f : RawFragment) : List String × List Event :=
  match extract f with
  | none => (seen, [])
  | some r =>
    let key := uniqueKey r.display_time r.content
    if key ∈ seen then (seen, [])
    else (key :: seen,
      [Event.record key, Event.push ⟨r.display_time, r.username, parse_bbcode r.content⟩])

/-- A batch element: a fragment whose parsing succeeds, or one whose
processing raises (modelling any exception thrown inside the `for` body). -/
abbrev Frag := Except String RawFragment

/-- chat.py lines 131-158: one `process_messages` call over a batch.  The
`try` block wraps the whole `for` loop, so the first raising fragment
aborts the remainder of the batch; the `except` at line 157 logs
`"Error processing messages: ..."` and returns normally.  Result: final
seen-set, events in order, and the logged error if any. -/
def processMessages (seen : List String) :
    List Frag → List String × List Event × Option String
  | [] => (seen, [], none)
  | Except.error e :: _ => (seen, [], some ("Error processing messages: " ++ e))
  | Except.ok f :: rest =>
    let p := stepFragment seen f
    let q := processMessages p.1 rest
    (q.1, p.2 ++ q.2.1, q.2.2)

/-- chat.py lines 160-168: `monitor_live` calls `process_messages` once per
poll iteration, unconditionally proceeding to the next iteration (the
per-call `except` never escapes).  Returns the final seen-set, all events,
and the per-iteration logs. -/
def monitorLive (seen : List String) :
    List (List Frag) → List String × List Event × List (Option String)
  | [] => (seen, [], [])
  | batch :: batches =>
    let p := processMessages seen batch
    let q := monitorLive p.1 batches
    (q.1, p.2.1 ++ q.2.1, p.2.2 :: q.2.2)

/-- The records pushed onto the queue, in order. -/
def pushes (evs : List Event) : List ChatRecord :=
  evs.filterMap (fun e => match e with | Event.push r => some r | _ => none)

/-- The keys recorded into `seen_messages`, in order. -/
def recordedKeys (evs : List Event) : List String :=
  evs.filterMap (fun e => match e with | Event.record k => some k | _ => none)

/-- Well-formed trace: events come in `record k` / `push r` pairs, the
record strictly before its push. -/
def pairedTrace : List Event → Bool
  | [] => true
  | Event.record _ :: Event.push _ :: rest => pairedTrace rest
  | _ => false

/-! ### Keystroke handling (chat.py lines 282-291)

`input_win.getch()` yields `-1` when no key is pending.  `curses.KEY_ENTER`
is 343 and `curses.KEY_BACKSPACE` is 263 (ncurses).  `handleKey` returns
the new input buffer and the message handed to `send_message`, if any. -/

def KEY_ENTER : Int := 343
def KEY_BACKSPACE : Int := 263

def handleKey (ch : Int) (buffer : String) : String × Option String :=
  if ch = -1 then (buffer, none)
  else if ch = KEY_ENTER ∨ ch = 10 ∨ ch = 13 then
    if pyStrip buffer ≠ "" then ("", some buffer) else (buffer, none)
  else if ch = KEY_BACKSPACE ∨ ch = 127 then (⟨buffer.data.dropLast⟩, none)
  else if 0 ≤ ch ∧ ch ≤ 255 then (buffer.push (Char.ofNat ch.toNat), none)
  else (buffer, none)

/-- The printable single-byte key codes (ASCII `0x20`–`0x7e`); this is the
predicate the specification's "printable character in the single-byte
printable range" denotes. -/
def isPrintableCode (ch : Int) : Bool :=
  32 ≤ ch && ch ≤ 126

/-! ### Basic lemmas about the extractor and the loop body -/

theorem extract_eq_some_iff (f : RawFragment) (r : ChatRecord) :
    extract f = some r ↔
      extractContent f ≠ "" ∧
        r = ⟨extractDisplayTime f, extractUsername f, extractContent f⟩ := by
  unfold extract
  split
  · simp [*]
  · simp [eq_comm (a := r), *]

theorem extractDisplayTime_congr {f g : RawFragment}
    (h : f.time_elem = g.time_elem) :
    extractDisplayTime f = extractDisplayTime g := by
  unfold extractDisplayTime
  rw [h]

theorem extractContent_congr {f g : RawFragment}
    (h : f.content_elem = g.content_elem) :
    extractContent f = extractContent g := by
  unfold extractContent
  rw [h]

theorem fragKey_of_extract {f : RawFragment} {r : ChatRecord}
    (h : extract f = some r) :
    uniqueKey r.display_time r.content = fragKey f := by
  obtain ⟨-, rfl⟩ := (extract_eq_some_iff f r).1 h
  rfl

theorem stepFragment_skip_empty (seen : List String) {f : RawFragment}
    (h : extract f = none) : stepFragment seen f = (seen, []) := by
  unfold stepFragment
  rw [h]

theorem stepFragment_skip_seen (seen : List String) {f : RawFragment}
    {r : ChatRecord} (h : extract f = some r)
    (hs : uniqueKey r.display_time r.content ∈ seen) :
    stepFragment seen f = (seen, []) := by
  unfold stepFragment
  rw [h]
  simp [hs]

theorem stepFragment_fresh (seen : List String) {f : RawFragment}
    {r : ChatRecord} (h : extract f = some r)
    (hs : uniqueKey r.display_time r.content ∉ seen) :
    stepFragment seen f =
      (uniqueKey r.display_time r.content :: seen,
       [Event.record (uniqueKey r.display_time r.content),
        Event.push ⟨r.display_time, r.username, parse_bbcode r.content⟩]) := by
  unfold stepFragment
  rw [h]
  simp [hs]

theorem recordedKeys_append (a b : List Event) :
    recordedKeys (a ++ b) = recordedKeys a ++ recordedKeys b :=
  List.filterMap_append a b _

theorem pushes_append (a b : List Event) :
    pushes (a ++ b) = pushes a ++ pushes b :=
  List.filterMap_append a b _

/-- Invariant of one `process_messages` call on a batch with no raising
fragment: no error is logged, the trace pairs every push with the record
of its key just before it, the final seen-set is exactly the recorded keys
on top of the initial one, and the recorded keys are fresh and pairwise
distinct. -/
theorem processMessages_ok_spec (frags : List RawFragment) : ∀ seen : List String,
    (processMessages seen (frags.map Except.ok)).2.2 = none ∧
    pairedTrace (processMessages seen (frags.map Except.ok)).2.1 = true ∧
    (processMessages seen (frags.map Except.ok)).1 =
      (recordedKeys (processMessages seen (frags.map Except.ok)).2.1).reverse ++ seen ∧
    (∀ k ∈ recordedKeys (processMessages seen (frags.map Except.ok)).2.1, k ∉ seen) ∧
    (recordedKeys (processMessages seen (frags.map Except.ok)).2.1).Nodup := by
  induction frags with
  | nil =>
    intro seen
    simp [processMessages, recordedKeys, pairedTrace]
  | cons f rest ih =>
    intro seen
    simp only [List.map_cons, processMessages]
    rcases hext : extract f with - | r
    · rw [stepFragment_skip_empty seen hext]
      simpa using ih seen
    · by_cases hs : uniqueKey r.display_time r.content ∈ seen
      · rw [stepFragment_skip_seen seen hext hs]
        simpa using ih seen
      · rw [stepFragment_fresh seen hext hs]
        obtain ⟨ih1, ih2, ih3, ih4, ih5⟩ :=
          ih (uniqueKey r.display_time r.content :: seen)
        refine ⟨ih1, ?_, ?_, ?_, ?_⟩
        · simpa [pairedTrace] using ih2
        · simpa [recordedKeys, List.append_assoc] using ih3
        · intro k hk
          rw [show ∀ l, recordedKeys
                ([Event.record (uniqueKey r.display_time r.content),
                  Event.push ⟨r.display_time, r.username,
                    parse_bbcode r.content⟩] ++ l) =
                uniqueKey r.display_time r.content :: recordedKeys l
              from fun l => rfl] at hk
          rcases List.mem_cons.1 hk with rfl | hk'
          · exact hs
          · exact fun hmem => ih4 k hk' (List.mem_cons_of_mem _ hmem)
        · have hfresh : uniqueKey r.display_time r.content ∉
              recordedKeys (processMessages
                (uniqueKey r.display_time r.content :: seen)
                (rest.map Except.ok)).2.1 := by
            intro hmem
            exact ih4 _ hmem (List.mem_cons_self _ _)
          rw [show ∀ l, recordedKeys
                ([Event.record (uniqueKey r.display_time r.content),
                  Event.push ⟨r.display_time, r.username,
                    parse_bbcode r.content⟩] ++ l) =
                uniqueKey r.display_time r.content :: recordedKeys l
              from fun l => rfl]
          exact List.nodup_cons.2 ⟨hfresh, ih5⟩

/-- Processing a batch of two fragments whose keys coincide: the second is
skipped, leaving exactly the first fragment's record/push pair. -/
theorem processMessages_pair_dup (f g : RawFragment) (r r2 : ChatRecord)
    (hf : extract f = some r) (hg : extract g = some r2)
    (hk : uniqueKey r2.display_time r2.content =
          uniqueKey r.display_time r.content) :
    (processMessages [] [Except.ok f, Except.ok g]).2.1 =
      [Event.record (uniqueKey r.display_time r.content),
       Event.push ⟨r.display_time, r.username, parse_bbcode r.content⟩] := by
  have h1 := stepFragment_fresh [] hf (by simp)
  have h2 := stepFragment_skip_seen [uniqueKey r.display_time r.content] hg
    (by rw [hk]; exact List.mem_cons_self _ _)
  simp [processMessages, h1, h2]

/-- Appending to a fixed string on the right is injective. -/
theorem uniqueKey_content_inj (dt c c2 : String)
    (h : uniqueKey dt c = uniqueKey dt c2) : c = c2 := by
  have h2 : (dt ++ "-").data ++ c.data = (dt ++ "-").data ++ c2.data := by
    have h3 := congrArg String.data h
    simpa [uniqueKey, String.data_append, List.append_assoc] using h3
  have h4 : c.data = c2.data := List.append_cancel_left h2
  cases c
  cases c2
  exact congrArg String.mk h4

/-- Claim C1 (confirmed).  For every batch processed by one loop instance the
recorded fingerprints are pairwise distinct and every push is immediately
preceded by the recording of its fingerprint, so at most one record per
fingerprint reaches the queue, and the fingerprint enters `seen_messages`
before the push; feeding the identical fragment twice pushes exactly one
record; and the fingerprint ignores the author: fragments agreeing on the
time and content elements share the fingerprint, and a colliding fragment
with a different author is still deduplicated. -/
theorem dedup_at_most_once :
    (∀ frags : List RawFragment,
       pairedTrace (processMessages [] (frags.map Except.ok)).2.1 = true ∧
       (recordedKeys (processMessages [] (frags.map Except.ok)).2.1).Nodup) ∧
    (∀ (f : RawFragment) (r : ChatRecord), extract f = some r →
       pushes (processMessages [] [Except.ok f, Except.ok f]).2.1 =
         [⟨r.display_time, r.username, parse_bbcode r.content⟩]) ∧
    (∀ f g : RawFragment, f.time_elem = g.time_elem →
       f.content_elem = g.content_elem → fragKey f = fragKey g) ∧
    (∀ (f g : RawFragment) (r : ChatRecord),
       f.time_elem = g.time_elem → f.content_elem = g.content_elem →
       extract f = some r →
       pushes (processMessages [] [Except.ok f, Except.ok g]).2.1 =
         [⟨r.display_time, r.username, parse_bbcode r.content⟩]) := by
  have hcongr : ∀ f g : RawFragment, f.time_elem = g.time_elem →
      f.content_elem = g.content_elem → fragKey f = fragKey g := by
    intro f g ht hc
    unfold fragKey
    rw [extractDisplayTime_congr ht, extractContent_congr hc]
  have hmain : ∀ (f g : RawFragment) (r : ChatRecord),
      f.time_elem = g.time_elem → f.content_elem = g.content_elem →
      extract f = some r →
      pushes (processMessages [] [Except.ok f, Except.ok g]).2.1 =
        [⟨r.display_time, r.username, parse_bbcode r.content⟩] := by
    intro f g r ht hc hf
    obtain ⟨hcne, hr⟩ := (extract_eq_some_iff f r).1 hf
    have hgne : extractContent g ≠ "" := by
      rw [← extractContent_congr hc]; exact hcne
    have hg : extract g =
        some ⟨extractDisplayTime g, extractUsername g, extractContent g⟩ :=
      (extract_eq_some_iff g _).2 ⟨hgne, rfl⟩
    have hk : uniqueKey (extractDisplayTime g) (extractContent g) =
        uniqueKey r.display_time r.content := by
      rw [hr]
      unfold uniqueKey
      rw [extractDisplayTime_congr ht, extractContent_congr hc]
    rw [processMessages_pair_dup f g r _ hf hg hk]
    rfl
  refine ⟨?_, ?_, hcongr, hmain⟩
  · intro frags
    obtain ⟨-, h2, -, -, h5⟩ := processMessages_ok_spec frags []
    exact ⟨h2, h5⟩
  · intro f r hf
    exact hmain f f r rfl rfl hf

/-- Claim C1 witness. -/
theorem dedup_at_most_once_witness :
    pushes (processMessages []
      [Except.ok (⟨some "alice", none, some "[b]hi[/b]"⟩ : RawFragment),
       Except.ok (⟨some "bob", none, some "[b]hi[/b]"⟩ : RawFragment)]).2.1 =
      [⟨"Unknown time", "alice", parse_bbcode "[b]hi[/b]"⟩] :=
  dedup_at_most_once.2.2.2 ⟨some "alice", none, some "[b]hi[/b]"⟩
    ⟨some "bob", none, some "[b]hi[/b]"⟩
    ⟨"Unknown time", "alice", "[b]hi[/b]"⟩ rfl rfl (by decide)

/-- Claim C2 counterexample.  The `title` attribute `" bad-ts "` is present
and unparsable (both verbatim and after stripping), yet the display time
is the *stripped* attribute `"bad-ts"`, not the raw attribute verbatim. -/
theorem display_time_verbatim_cx :
    fromisoformat " bad-ts " = none ∧
    fromisoformat "bad-ts" = none ∧
    extract ⟨some "alice", some ⟨some " bad-ts "⟩, some "x"⟩ =
      some ⟨"bad-ts", "alice", "x"⟩ ∧
    ("bad-ts" : String) ≠ " bad-ts " :=
  ⟨by decide, by decide, by decide, by decide⟩

/-- Claim C2 amended (proved).  Extraction yields no record exactly when the
body element is absent or its text strips to empty; the display time is
the parsed timestamp rendered `HH:MM:SS` when the *stripped* attribute
parses, the *stripped* attribute itself when it does not, and
`"Unknown time"` when the element or attribute is missing; the author is
the stripped author text, defaulting to empty. -/
theorem extract_characterization :
    (∀ f : RawFragment, f.content_elem = none → extract f = none) ∧
    (∀ (f : RawFragment) (s : String), f.content_elem = some s →
       pyStrip s = "" → extract f = none) ∧
    (∀ (f : RawFragment) (r : ChatRecord), extract f = some r →
       r = ⟨extractDisplayTime f, extractUsername f, extractContent f⟩ ∧
         extractContent f ≠ "") ∧
    (∀ f : RawFragment, f.time_elem = none →
       extractDisplayTime f = "Unknown time") ∧
    (∀ f : RawFragment, f.time_elem = some ⟨none⟩ →
       extractDisplayTime f = "Unknown time") ∧
    (∀ (f : RawFragment) (t : String) (dt : PyDateTime),
       f.time_elem = some ⟨some t⟩ → fromisoformat (pyStrip t) = some dt →
       extractDisplayTime f = formatHMS dt) ∧
    (∀ (f : RawFragment) (t : String), f.time_elem = some ⟨some t⟩ →
       fromisoformat (pyStrip t) = none → extractDisplayTime f = pyStrip t) ∧
    (∀ f : RawFragment, f.username_elem = none → extractUsername f = "") ∧
    (∀ (f : RawFragment) (a : String), f.username_elem = some a →
       extractUsername f = pyStrip a) ∧
    (fromisoformat "2024-01-01T10:00:00").map formatHMS = some "10:00:00" := by
  refine ⟨?_, ?_, ?_, ?_, ?_, ?_, ?_, ?_, ?_, by decide⟩
  · intro f h
    simp [extract, extractContent, h]
  · intro f s h hs
    simp [extract, extractContent, h, hs]
  · intro f r h
    obtain ⟨h1, h2⟩ := (extract_eq_some_iff f r).1 h
    exact ⟨h2, h1⟩
  · intro f h
    simp [extractDisplayTime, h]
  · intro f h
    simp [extractDisplayTime, h]
  · intro f t dt h hiso
    simp [extractDisplayTime, h, hiso]
  · intro f t h hiso
    simp [extractDisplayTime, h, hiso]
  · intro f h
    simp [extractUsername, h]
  · intro f a h
    simp [extractUsername, h]

/-- Claim C2 witness. -/
theorem extract_characterization_witness :
    extractDisplayTime ⟨none, some ⟨some " 2024-01-01T10:00:00 "⟩, none⟩ =
      formatHMS ⟨2024, 1, 1, 10, 0, 0⟩ :=
  extract_characterization.2.2.2.2.2.1
    ⟨none, some ⟨some " 2024-01-01T10:00:00 "⟩, none⟩
    " 2024-01-01T10:00:00 " ⟨2024, 1, 1, 10, 0, 0⟩ rfl (by decide)

/-- If no position of the input matches, one `re.sub` pass is the identity. -/
theorem substAux_of_no_match (m : List Char → Option (List Char × List Char)) :
    ∀ (n : Nat) (s : List Char), hasMatch m s = false → substAux m n s = s := by
  intro n
  induction n with
  | zero => intro s h; rfl
  | succ k ih =>
    intro s h
    cases s with
    | nil => rfl
    | cons c cs =>
      rcases hm : m (c :: cs) with - | p
      · have h2 : hasMatch m cs = false := by simpa [hasMatch, hm] using h
        simp [substAux, hm, ih cs h2]
      · exfalso
        simp [hasMatch, hm] at h

theorem subst_of_no_match (m : List Char → Option (List Char × List Char))
    (s : String) (h : hasMatch m s.data = false) : subst m s = s := by
  unfold subst
  rw [substAux_of_no_match m _ _ h]

/-- Claim C3 (confirmed).  `parse_bbcode` is the three rewrites bold, italic,
color in that fixed order; the three sample transforms hold; a transform
inside a color span is applied before the color wrapper is stripped; and
text containing none of the three patterns is returned unchanged. -/
theorem parse_bbcode_transforms :
    (∀ t : String, parse_bbcode t = colorSub (italicSub (boldSub t))) ∧
    parse_bbcode "[b]hi[/b]" = "HI" ∧
    parse_bbcode "[i]hi[/i]" = "_hi_" ∧
    parse_bbcode "[color=#ff0000]hi[/color]" = "hi" ∧
    parse_bbcode "[color=red][i]hi[/i][/color]" = "_hi_" ∧
    (∀ t : String, hasBold t = false → hasItalic t = false →
       hasColor t = false → parse_bbcode t = t) := by
  refine ⟨fun t => rfl, by decide, by decide, by decide, by decide, ?_⟩
  intro t hb hi hc
  unfold parse_bbcode
  rw [show boldSub t = t from subst_of_no_match _ t hb,
      show italicSub t = t from subst_of_no_match _ t hi,
      show colorSub t = t from subst_of_no_match _ t hc]

/-- Claim C3 witness. -/
theorem parse_bbcode_transforms_witness :
    parse_bbcode "plain text, no tags" = "plain text, no tags" :=
  parse_bbcode_transforms.2.2.2.2.2 "plain text, no tags"
    (by decide) (by decide) (by decide)

/-- Claim C4 counterexample.  Submitting the buffer `" hi "` invokes the send
operation with the untrimmed buffer `" hi "`, not with its trimmed content
`"hi"`. -/
theorem send_trimmed_cx :
    handleKey 10 " hi " = ("", some " hi ") ∧
    pyStrip " hi " = "hi" ∧
    (" hi " : String) ≠ "hi" :=
  ⟨by decide, by decide, by decide⟩

/-- Claim C4 amended (proved).  On Enter/Return with a buffer that is
non-empty after trimming, the send operation is invoked exactly once with
the buffer's *full untrimmed* content and the buffer is reset to empty;
with an empty or whitespace-only buffer nothing is sent. -/
theorem submit_sends_buffer (ch : Int) (buf : String)
    (hch : ch = KEY_ENTER ∨ ch = 10 ∨ ch = 13) :
    (pyStrip buf ≠ "" → handleKey ch buf = ("", some buf)) ∧
    (pyStrip buf = "" → handleKey ch buf = (buf, none)) := by
  rcases hch with rfl | rfl | rfl <;>
    exact ⟨fun hb => by simp [handleKey, KEY_ENTER, KEY_BACKSPACE, hb],
           fun hb => by simp [handleKey, KEY_ENTER, KEY_BACKSPACE, hb]⟩

/-- Claim C4 witness. -/
theorem submit_sends_buffer_witness :
    handleKey 10 " hi " = ("", some " hi ") ∧
    handleKey 10 " " = (" ", none) :=
  ⟨(submit_sends_buffer 10 " hi " (Or.inr (Or.inl rfl))).1 (by decide),
   (submit_sends_buffer 10 " " (Or.inr (Or.inl rfl))).2 (by decide)⟩

/-- Claim C5 counterexample.  The fragments with bodies `"[b]hi[/b]"` and
`"HI"` have equal display time and bodies normalizing to the same text,
yet their fingerprints differ, and both records are pushed. -/
theorem fingerprint_normalized_cx :
    extractDisplayTime ⟨some "alice", none, some "[b]hi[/b]"⟩ =
      extractDisplayTime ⟨some "bob", none, some "HI"⟩ ∧
    parse_bbcode (extractContent ⟨some "alice", none, some "[b]hi[/b]"⟩) =
      parse_bbcode (extractContent ⟨some "bob", none, some "HI"⟩) ∧
    fragKey ⟨some "alice", none, some "[b]hi[/b]"⟩ ≠
      fragKey ⟨some "bob", none, some "HI"⟩ ∧
    (pushes (processMessages []
      [Except.ok (⟨some "alice", none, some "[b]hi[/b]"⟩ : RawFragment),
       Except.ok (⟨some "bob", none, some "HI"⟩ : RawFragment)]).2.1).length
      = 2 :=
  ⟨by decide, by decide, by decide, by decide⟩

/-- Claim C5 amended (proved).  The fingerprint is derived from the display
time and the *raw* (stripped, pre-normalization) body — `parse_bbcode`
runs only after the dedup check, on the pushed record — so two fragments
with equal display time whose raw bodies differ receive *different*
fingerprints even when the bodies normalize to the same text, and both
records reach the queue, each push carrying the normalized body. -/
theorem fingerprint_from_raw_body (f g : RawFragment) (r r2 : ChatRecord)
    (hf : extract f = some r) (hg : extract g = some r2)
    (ht : r.display_time = r2.display_time)
    (hne : r.content ≠ r2.content)
    (hnorm : parse_bbcode r.content = parse_bbcode r2.content) :
    fragKey f ≠ fragKey g ∧
    pushes (processMessages [] [Except.ok f, Except.ok g]).2.1 =
      [⟨r.display_time, r.username, parse_bbcode r.content⟩,
       ⟨r2.display_time, r2.username, parse_bbcode r2.content⟩] ∧
    recordedKeys (processMessages [] [Except.ok f, Except.ok g]).2.1 =
      [r.display_time ++ "-" ++ r.content,
       r2.display_time ++ "-" ++ r2.content] := by
  have hkne : uniqueKey r.display_time r.content ≠
      uniqueKey r2.display_time r2.content := by
    intro h
    rw [← ht] at h
    exact hne (uniqueKey_content_inj r.display_time _ _ h)
  have h1 := stepFragment_fresh [] hf (by simp)
  have h2 := stepFragment_fresh [uniqueKey r.display_time r.content] hg
    (by
      intro hmem
      rcases List.mem_cons.1 hmem with heq | hmem2
      · exact hkne heq.symm
      · simp at hmem2)
  constructor
  · rw [← fragKey_of_extract hf, ← fragKey_of_extract hg]
    exact hkne
  · constructor
    · simp [processMessages, h1, h2, pushes]
    · show recordedKeys (processMessages [] [Except.ok f, Except.ok g]).2.1 =
        [uniqueKey r.display_time r.content,
         uniqueKey r2.display_time r2.content]
      simp [processMessages, h1, h2, recordedKeys]

/-- Claim C5 witness. -/
theorem fingerprint_from_raw_body_witness :
    pushes (processMessages []
      [Except.ok (⟨some "alice", none, some "[b]hi[/b]"⟩ : RawFragment),
       Except.ok (⟨some "bob", none, some "HI"⟩ : RawFragment)]).2.1 =
      [⟨"Unknown time", "alice", parse_bbcode "[b]hi[/b]"⟩,
       ⟨"Unknown time", "bob", parse_bbcode "HI"⟩] :=
  (fingerprint_from_raw_body
    ⟨some "alice", none, some "[b]hi[/b]"⟩ ⟨some "bob", none, some "HI"⟩
    ⟨"Unknown time", "alice", "[b]hi[/b]"⟩ ⟨"Unknown time", "bob", "HI"⟩
    (by decide) (by decide) rfl (by decide) (by decide)).2.1

/-- Claim C6 (confirmed).  A batch of fragments that all extract, whose
fingerprints are pairwise distinct and fresh, is pushed in exactly the
order of the batch. -/
theorem batch_order_preserved (frags : List RawFragment) (seen : List String)
    (h1 : ∀ f ∈ frags, extract f ≠ none)
    (h2 : (frags.map fragKey).Nodup)
    (h3 : ∀ f ∈ frags, fragKey f ∉ seen) :
    pushes (processMessages seen (frags.map Except.ok)).2.1 =
      frags.map mkRecord := by
  induction frags generalizing seen with
  | nil => simp [processMessages, pushes]
  | cons f rest ih =>
    rcases hx : extract f with - | r
    · exact absurd hx (h1 f (List.mem_cons_self f rest))
    · obtain ⟨hcne, hr⟩ := (extract_eq_some_iff f r).1 hx
      have hkey : uniqueKey r.display_time r.content = fragKey f :=
        fragKey_of_extract hx
      have hfresh : uniqueKey r.display_time r.content ∉ seen := by
        rw [hkey]; exact h3 f (List.mem_cons_self f rest)
      have hstep := stepFragment_fresh seen hx hfresh
      have hnotin : fragKey f ∉ rest.map fragKey :=
        (List.nodup_cons.1 (by simpa using h2)).1
      have ihr := ih (uniqueKey r.display_time r.content :: seen)
        (fun g hg => h1 g (List.mem_cons_of_mem f hg))
        ((List.nodup_cons.1 (by simpa using h2)).2)
        (by
          intro g hg hmem
          rcases List.mem_cons.1 hmem with heq | hmem2
          · exact hnotin (by rw [← hkey, ← heq]; exact List.mem_map_of_mem _ hg)
          · exact h3 g (List.mem_cons_of_mem f hg) hmem2)
      simp only [List.map_cons, processMessages, hstep]
      rw [pushes_append, ihr]
      have hhead : pushes [Event.record (uniqueKey r.display_time r.content),
          Event.push ⟨r.display_time, r.username, parse_bbcode r.content⟩] =
          [⟨r.display_time, r.username, parse_bbcode r.content⟩] := rfl
      rw [hhead]
      have hmk : mkRecord f = ⟨r.display_time, r.username, parse_bbcode r.content⟩ := by
        rw [hr]; rfl
      rw [hmk]
      rfl

/-- Claim C6 witness. -/
theorem batch_order_preserved_witness :
    pushes (processMessages []
      (([⟨some "a", none, some "one"⟩, ⟨some "b", none, some "two"⟩,
         ⟨some "c", none, some "three"⟩] : List RawFragment).map
        Except.ok)).2.1 =
      ([⟨some "a", none, some "one"⟩, ⟨some "b", none, some "two"⟩,
        ⟨some "c", none, some "three"⟩] : List RawFragment).map mkRecord :=
  batch_order_preserved _ [] (by decide) (by decide) (by decide)

/-- Claim C7 counterexample.  In the batch `[good₁, raising, good₂]` the valid
non-duplicate fragment `good₂` after the raising one is *not* extracted or
enqueued: the trace stops at `good₁`'s events. -/
theorem batch_error_skips_rest_cx :
    (extract ⟨some "bob", none, some "two"⟩).isSome = true ∧
    fragKey ⟨some "bob", none, some "two"⟩ ≠
      fragKey ⟨some "alice", none, some "one"⟩ ∧
    Event.push (mkRecord ⟨some "bob", none, some "two"⟩) ∉
      (processMessages []
        [Except.ok (⟨some "alice", none, some "one"⟩ : RawFragment),
         Except.error "boom",
         Except.ok (⟨some "bob", none, some "two"⟩ : RawFragment)]).2.1 ∧
    (processMessages []
      [Except.ok (⟨some "alice", none, some "one"⟩ : RawFragment),
       Except.error "boom",
       Except.ok (⟨some "bob", none, some "two"⟩ : RawFragment)]).2.1 =
      [Event.record (fragKey ⟨some "alice", none, some "one"⟩),
       Event.push (mkRecord ⟨some "alice", none, some "one"⟩)] :=
  ⟨by decide, by decide, by decide, by decide⟩

/-- Claim C7 amended (proved).  An exception while processing a fragment is
caught and logged (`process_messages` returns normally with the error
message), the fragments already processed keep their effects, the
remaining fragments of the same batch are abandoned, and the polling loop
still processes the next batch. -/
theorem batch_error_abandons_rest :
    (∀ (seen : List String) (oks : List RawFragment) (e : String)
       (rest : List Frag),
       processMessages seen (oks.map Except.ok ++ Except.error e :: rest) =
         ((processMessages seen (oks.map Except.ok)).1,
          (processMessages seen (oks.map Except.ok)).2.1,
          some ("Error processing messages: " ++ e))) ∧
    (∀ (seen : List String) (e : String) (rest : List Frag)
       (next : List Frag),
       (monitorLive seen [Except.error e :: rest, next]).2.1 =
         (processMessages seen next).2.1 ∧
       (monitorLive seen [Except.error e :: rest, next]).2.2 =
         [some ("Error processing messages: " ++ e),
          (processMessages seen next).2.2]) := by
  constructor
  · intro seen oks
    induction oks generalizing seen with
    | nil => intro e rest; simp [processMessages]
    | cons f oks ih =>
      intro e rest
      simp only [List.map_cons, List.cons_append, processMessages,
        List.append_eq]
      rw [ih (stepFragment seen f).1 e rest]
  · intro seen e rest next
    constructor <;> simp [monitorLive, processMessages]

/-- Claim C8 counterexample.  On `"[b]a[/b]b[/b]"` a greedy match would
capture up to the *last* closing tag (`"a[/b]b"`, giving `"A[/B]B"`); the
code captures up to the nearest one and yields `"Ab[/b]"`. -/
theorem greedy_match_cx :
    parse_bbcode "[b]a[/b]b[/b]" = "Ab[/b]" ∧
    parse_bbcode "[b]a[/b]b[/b]" ≠ "A[/B]B" :=
  ⟨by decide, by decide⟩

/-- The split produced by `splitAtFirst` is the *nearest* occurrence: for
any decomposition `pre ++ needle ++ post` such that no occurrence of
`needle` starts inside `pre` (occurrences starting there lie within
`pre ++ needle.dropLast`), the split returns exactly `(pre, post)`. -/
theorem splitAtFirst_of_not_infix (needle : List Char) (hn : needle ≠ []) :
    ∀ pre post : List Char, ¬ needle <:+: (pre ++ needle.dropLast) →
      splitAtFirst needle (pre ++ needle ++ post) = some (pre, post) := by
  intro pre
  induction pre with
  | nil =>
    intro post h
    obtain ⟨n, ns, rfl⟩ := List.exists_cons_of_ne_nil hn
    show splitAtFirst (n :: ns) (n :: (ns ++ post)) = some ([], post)
    simp only [splitAtFirst]
    rw [if_pos (by
      rw [List.isPrefixOf_iff_prefix]
      exact ⟨post, by simp⟩)]
    simp
  | cons x xs ih =>
    intro post h
    have hnpre : ¬ needle <+: (x :: (xs ++ needle ++ post)) := by
      intro hpre
      have hfull : x :: (xs ++ needle ++ post) =
          ((x :: xs) ++ needle.dropLast) ++ (needle.getLast hn :: post) := by
        have hd := List.dropLast_append_getLast hn
        calc x :: (xs ++ needle ++ post)
            = x :: (xs ++ (needle.dropLast ++ [needle.getLast hn]) ++ post) := by
              rw [hd]
          _ = ((x :: xs) ++ needle.dropLast) ++ (needle.getLast hn :: post) := by
              simp [List.append_assoc]
      have hlen : needle.length ≤ ((x :: xs) ++ needle.dropLast).length := by
        have h1 : 0 < needle.length := List.length_pos.2 hn
        simp only [List.length_append, List.length_cons, List.length_dropLast]
        omega
      have h2 : needle = (x :: (xs ++ needle ++ post)).take needle.length :=
        List.prefix_iff_eq_take.1 hpre
      rw [hfull, List.take_append_of_le_length hlen] at h2
      have hinf : needle <+: ((x :: xs) ++ needle.dropLast) := by
        nth_rewrite 1 [h2]
        exact List.take_prefix _ _
      exact h hinf.isInfix
    have hni : ¬ needle <:+: (xs ++ needle.dropLast) := fun hinf =>
      h (List.infix_cons hinf)
    show splitAtFirst needle (x :: (xs ++ needle ++ post)) =
      some (x :: xs, post)
    simp only [splitAtFirst]
    rw [if_neg (by rw [List.isPrefixOf_iff_prefix]; exact hnpre),
      ih post hni]

/-- Lifted through `tagMatchAt`: at a match site `opn ++ body ++ cls ++ rest`
with no occurrence of `cls` starting inside `body`, the captured enclosed
text is exactly `body` — it extends to the nearest closing tag, whatever
characters (newlines included) `body` and `rest` contain. -/
theorem tagMatchAt_nearest (opn cls : List Char)
    (repl : List Char → List Char) (hc : cls ≠ []) (body rest : List Char)
    (h : ¬ cls <:+: (body ++ cls.dropLast)) :
    tagMatchAt opn cls repl (opn ++ (body ++ cls ++ rest)) =
      some (repl body, rest) := by
  unfold tagMatchAt
  rw [if_pos (by
        rw [List.isPrefixOf_iff_prefix]
        exact List.prefix_append _ _),
    List.drop_left, splitAtFirst_of_not_infix cls hc body rest h]

/-- A run of characters other than the closing bracket is taken whole by
the attribute scan of the color pattern. -/
theorem takeWhile_until_bracket :
    ∀ attr u : List Char, (∀ c ∈ attr, ¬ c = ']') →
      (attr ++ ']' :: u).takeWhile (fun c => c ≠ ']') = attr := by
  intro attr
  induction attr with
  | nil =>
    intro u h
    simp [List.takeWhile_cons]
  | cons a as ih =>
    intro u h
    have ha : ¬ a = ']' := h a (List.mem_cons_self a as)
    have ih2 := ih u (fun c hc => h c (List.mem_cons_of_mem a hc))
    simp only [ne_eq, decide_not] at ih2
    simp [List.takeWhile_cons, ha, ih2]

/-- Lifted through `colorMatchAt`: at a match site with a nonempty
bracket-free attribute, the captured enclosed text extends to the nearest
`[/color]`, whatever characters (newlines included) it contains. -/
theorem colorMatchAt_nearest (attr body rest : List Char)
    (ha : attr ≠ []) (hattr : ∀ c ∈ attr, ¬ c = ']')
    (h : ¬ ("[/color]".data <:+: (body ++ ("[/color]".data).dropLast))) :
    colorMatchAt
        ("[color=".data ++ (attr ++ ']' :: (body ++ "[/color]".data ++ rest))) =
      some (body, rest) := by
  unfold colorMatchAt
  rw [if_pos (by
        rw [List.isPrefixOf_iff_prefix]
        exact List.prefix_append _ _)]
  have hdrop : ("[color=".data ++
      (attr ++ ']' :: (body ++ "[/color]".data ++ rest))).drop 7 =
      attr ++ ']' :: (body ++ "[/color]".data ++ rest) :=
    List.drop_left' (by decide)
  simp only [hdrop, takeWhile_until_bracket attr _ hattr]
  obtain ⟨a, as, rfl⟩ := List.exists_cons_of_ne_nil ha
  simp only [List.isEmpty_cons, Bool.false_eq_true, if_false, List.drop_left,
    splitAtFirst_of_not_infix ("[/color]".data) (by decide) body rest h]

/-- Claim C8 amended (proved).  For every input, each of the three tag
patterns is matched lazily across multiline content: at any match site
`opening ++ body ++ closing ++ rest` in which no occurrence of the closing
tag starts inside `body`, the captured enclosed text is exactly `body` —
it extends to the *nearest* occurrence of the closing tag, for arbitrary
`body` and `rest`, newline characters included; the ground instances show
the resulting normalizer behaviour on nearest-tag and multiline inputs. -/
theorem lazy_multiline_match :
    (∀ body rest : List Char,
       ¬ ("[/b]".data <:+: (body ++ ("[/b]".data).dropLast)) →
       tagMatchAt "[b]".data "[/b]".data (·.map pyUpperChar)
           ("[b]".data ++ (body ++ "[/b]".data ++ rest)) =
         some (body.map pyUpperChar, rest)) ∧
    (∀ body rest : List Char,
       ¬ ("[/i]".data <:+: (body ++ ("[/i]".data).dropLast)) →
       tagMatchAt "[i]".data "[/i]".data (fun b => '_' :: b ++ ['_'])
           ("[i]".data ++ (body ++ "[/i]".data ++ rest)) =
         some ('_' :: body ++ ['_'], rest)) ∧
    (∀ attr body rest : List Char, attr ≠ [] → (∀ c ∈ attr, ¬ c = ']') →
       ¬ ("[/color]".data <:+: (body ++ ("[/color]".data).dropLast)) →
       colorMatchAt ("[color=".data ++
           (attr ++ ']' :: (body ++ "[/color]".data ++ rest))) =
         some (body, rest)) ∧
    parse_bbcode "[b]a[/b]b[/b]" = "Ab[/b]" ∧
    parse_bbcode "[i]a[/i]b[/i]" = "_a_b[/i]" ∧
    parse_bbcode "[color=x]a[/color]b[/color]" = "ab[/color]" ∧
    parse_bbcode "[b]a\nb[/b]" = "A\nB" ∧
    parse_bbcode "[i]a\nb[/i]" = "_a\nb_" ∧
    parse_bbcode "[color=#ff0000]a\nb[/color]" = "a\nb" :=
  ⟨fun body rest h => tagMatchAt_nearest _ _ _ (by decide) body rest h,
   fun body rest h => tagMatchAt_nearest _ _ _ (by decide) body rest h,
   fun attr body rest ha hattr h => colorMatchAt_nearest attr body rest ha hattr h,
   by decide, by decide, by decide, by decide, by decide, by decide⟩

/-- Claim C8 witness. -/
theorem lazy_multiline_match_witness :
    tagMatchAt "[b]".data "[/b]".data (·.map pyUpperChar)
        ("[b]".data ++ ("a\nb".data ++ "[/b]".data ++ "x[/b]".data)) =
      some (("a\nb".data).map pyUpperChar, "x[/b]".data) ∧
    colorMatchAt ("[color=".data ++
        ("red".data ++ ']' :: ("a\nb".data ++ "[/color]".data ++ "t".data))) =
      some ("a\nb".data, "t".data) :=
  ⟨lazy_multiline_match.1 "a\nb".data "x[/b]".data (by decide),
   lazy_multiline_match.2.2.1 "red".data "a\nb".data "t".data
     (by decide) (by decide) (by decide)⟩

/-- Claim C9 counterexample.  Key code 27 (escape) is not printable, is not
Enter/Return or Backspace, yet it is appended to the buffer. -/
theorem printable_append_cx :
    isPrintableCode 27 = false ∧
    ¬((27 : Int) = KEY_ENTER ∨ (27 : Int) = 10 ∨ (27 : Int) = 13) ∧
    ¬((27 : Int) = KEY_BACKSPACE ∨ (27 : Int) = 127) ∧
    handleKey 27 "" = ("\x1b", none) ∧
    ("\x1b" : String) ≠ "" :=
  ⟨by decide, by decide, by decide, by decide, by decide⟩

/-- Claim C9 amended (proved).  A key that is neither Enter/Return nor
Backspace is appended to the buffer whenever its code lies in the
single-byte range 0–255, printable or not; a key code outside that range
leaves the buffer unchanged. -/
theorem append_single_byte_range (ch : Int) (buf : String)
    (h1 : ¬(ch = KEY_ENTER ∨ ch = 10 ∨ ch = 13))
    (h2 : ¬(ch = KEY_BACKSPACE ∨ ch = 127))
    (h3 : ch ≠ -1) :
    (0 ≤ ch ∧ ch ≤ 255 →
       handleKey ch buf = (buf.push (Char.ofNat ch.toNat), none)) ∧
    (¬(0 ≤ ch ∧ ch ≤ 255) → handleKey ch buf = (buf, none)) :=
  ⟨fun hb => by simp [handleKey, h1, h2, h3, hb],
   fun hb => by simp [handleKey, h1, h2, h3, hb]⟩

/-- Claim C9 witness. -/
theorem append_single_byte_range_witness :
    handleKey 97 "x" = ("xa", none) ∧ handleKey 300 "x" = ("x", none) :=
  ⟨((append_single_byte_range 97 "x" (by decide) (by decide) (by decide)).1
      (by decide)).trans (by decide),
   (append_single_byte_range 300 "x" (by decide) (by decide) (by decide)).2
      (by decide)⟩

/-- Claim C10 (confirmed).  Pressing Enter/Return with a non-empty but
whitespace-only buffer sends nothing and leaves the buffer unchanged, so
the whitespace content persists into subsequent ticks. -/
theorem whitespace_submit_noop (ch : Int) (buf : String)
    (hch : ch = KEY_ENTER ∨ ch = 10 ∨ ch = 13)
    (hne : buf ≠ "") (hws : pyStrip buf = "") :
    handleKey ch buf = (buf, none) ∧
    handleKey ch (handleKey ch buf).1 = (buf, none) := by
  have h1 : handleKey ch buf = (buf, none) := by
    rcases hch with rfl | rfl | rfl <;>
      simp [handleKey, KEY_ENTER, KEY_BACKSPACE, hws]
  refine ⟨h1, ?_⟩
  rw [h1]
  exact h1

/-- Claim C10 witness. -/
theorem whitespace_submit_noop_witness :
    handleKey 10 "  " = ("  ", none) ∧
    handleKey 10 (handleKey 10 "  ").1 = ("  ", none) :=
  whitespace_submit_noop 10 "  " (Or.inr (Or.inl rfl)) (by decide) (by decide)

end Unit3dChat
